import Mathlib

/-!
# Verification of the divan sample-driven measurement engine

A shallow embedding, in Lean 4, of the core measurement engine of the
`divan` microbenchmarking harness, together with theorems checking the
natural-language specification against it.

Embedded source files:
* `src/util.rs` — `slice_middle`.
* `src/bench.rs` — `SmallDuration` and its `Debug` formatting (which
  delegates to `core::time::Duration`'s `Debug` impl for values of at
  least one nanosecond, itself embedded here).
* `src/bench/mod.rs` — `BenchMode`, `BenchContext::bench_loop`,
  `BenchContext::sample_recorder`, `BenchContext::initial_mode`, and
  `BenchContext::compute_stats`.

Machine integers are embedded as `Nat`; wrapping, saturating, and
checked operations of the source are made explicit (`% 2 ^ 32`,
`min _ (2 ^ 128 - 1)`, truncated subtraction, a guarded division).
A few helpers of the crate (`BenchOptions::has_samples`,
`SampleCollection::iter_count`, `SampleCollection::total_duration`,
`DeferStore::slots`) live in modules that accompany the embedded files;
where such a helper is needed its definition is modelled from the
specification and marked as such in its doc comment.
-/

namespace Divan

/-! ## `src/util.rs`: `slice_middle` -/

/-- Embedding of `util::slice_middle`: returns the values in the middle of
`slice`; if the slice has an even length, two middle values exist.
Mirrors the source: empty slices are returned unchanged, even lengths
take `slice[(len / 2) - 1..][..2]`, odd lengths take `slice[len / 2..][..1]`. -/
def sliceMiddle {α : Type} (slice : List α) : List α :=
  if slice.length = 0 then
    slice
  else if slice.length % 2 = 0 then
    ((slice.drop (slice.length / 2 - 1)).take 2)
  else
    ((slice.drop (slice.length / 2)).take 1)

/-! ## `src/bench.rs`: `SmallDuration` `Debug` formatting

`SmallDuration` is a picosecond count (`u128`).  Its `Debug` impl prints
`"{picos}ps"` below 1 000 picoseconds, `"{picos as f64 / 1000.0}ns"`
below 1 000 000 picoseconds, and otherwise defers to the `Debug` impl of
`core::time::Duration` on `Duration::from_nanos(picos / 1_000)`. -/

/-- Digits of the fractional part as printed by `core`'s
`Duration::fmt` helper (`fmt_decimal`) when no precision is requested:
repeatedly divide by `divisor` (initially one tenth of the unit),
emitting one digit per step, and stop as soon as the remaining
fractional part is zero — so trailing zeros are never printed.  The
source's loop runs at most 9 times (`divisor` starts at most at `10^8`);
`fuel` makes that bound explicit. -/
def fmtDecimalFrac (fuel : Nat) (fractionalPart : Nat) (divisor : Nat) : String :=
  match fuel with
  | 0 => ""
  | fuel + 1 =>
    if fractionalPart = 0 then ""
    else
      toString (fractionalPart / divisor)
        ++ fmtDecimalFrac fuel (fractionalPart % divisor) (divisor / 10)

/-- `core`'s `fmt_decimal` with default formatter options: the integer
part, then a `.` and the fractional digits when the fractional part is
nonzero, then the unit suffix. -/
def fmtDecimal (integerPart : Nat) (fractionalPart : Nat) (divisor : Nat)
    (unit : String) : String :=
  let frac := fmtDecimalFrac 9 fractionalPart divisor
  toString integerPart ++ (if frac = "" then "" else "." ++ frac) ++ unit

/-- Embedding of `core::time::Duration`'s `Debug` impl (default
formatter options) applied to `Duration::from_nanos nanos`: choose
seconds, milliseconds, microseconds, or nanoseconds, largest unit first. -/
def durationDebug (nanos : Nat) : String :=
  let secs := nanos / 1000000000
  let subsecNanos := nanos % 1000000000
  if secs > 0 then
    fmtDecimal secs subsecNanos (1000000000 / 10) "s"
  else if subsecNanos ≥ 1000000 then
    fmtDecimal (subsecNanos / 1000000) (subsecNanos % 1000000) (1000000 / 10) "ms"
  else if subsecNanos ≥ 1000 then
    fmtDecimal (subsecNanos / 1000) (subsecNanos % 1000) (1000 / 10) "µs"
  else
    fmtDecimal subsecNanos 0 1 "ns"

/-- The `f64` display of `picos / 1000.0` used by the `ns` branch of
`SmallDuration`'s `Debug` impl, for `1_000 ≤ picos < 1_000_000`.  In
that range `picos` is exactly representable in `f64`, the quotient's
exact decimal expansion has at most three fractional digits, and Rust's
`f64` `Display` prints the shortest decimal that rounds back to the
value — which for such quantities is exactly that expansion with
trailing zeros omitted (and no `.` when the fraction is zero).  The
embedding therefore formats the exact quotient `picos / 1000` with its
fractional digits. -/
def nanosF64Display (picos : Nat) : String :=
  let whole := picos / 1000
  let frac := picos % 1000
  let fracStr := fmtDecimalFrac 9 frac 100
  toString whole ++ (if fracStr = "" then "" else "." ++ fracStr)

/-- Embedding of `impl fmt::Debug for SmallDuration` (`src/bench.rs`,
lines 147–160): `ps` below one nanosecond, fractional `ns` below one
microsecond, `core::time::Duration`'s `Debug` on `picos / 1_000`
nanoseconds otherwise. -/
def smallDurationDebug (picos : Nat) : String :=
  if picos < 1000 then
    toString picos ++ "ps"
  else if picos < 1000000 then
    nanosF64Display picos ++ "ns"
  else
    durationDebug (picos / 1000)

/-! ## `src/bench/mod.rs`: the driver loop

`BenchContext::bench_loop` is embedded as a state machine: the state a
`LoopState`, the environment (the clock readings and counter tallies the
`while` body consumes) a list of `Meas` records, one per iteration.  The
result of running the loop on every prefix of a measurement list is an
observable state of `bench_loop`, so theorems quantified over all
measurement lists cover every observable moment of a run. -/

/-- `BenchMode` (`src/bench/mod.rs` lines 300–338). -/
inductive BenchMode where
  | test
  | tune (sampleSize : Nat)
  | collect (sampleSize : Nat)
deriving DecidableEq, Repr

/-- `BenchMode::is_test`. -/
def BenchMode.isTest : BenchMode → Bool
  | .test => true
  | _ => false

/-- `BenchMode::is_tune`. -/
def BenchMode.isTune : BenchMode → Bool
  | .tune _ => true
  | _ => false

/-- `BenchMode::is_collect`. -/
def BenchMode.isCollect : BenchMode → Bool
  | .collect _ => true
  | _ => false

/-- `BenchMode::sample_size`. -/
def BenchMode.sampleSize : BenchMode → Nat
  | .test => 1
  | .tune s => s
  | .collect s => s

/-- The configuration and environment constants of one `bench_loop`
call: the fields of `BenchOptions` the loop reads (`min_time()` and
`max_time()` as their picosecond values, `sample_count`, `sample_size`,
`skip_ext_time.unwrap_or_default()`), the `SharedContext`'s clock
precision (`timer.precision().picos`) and calibrated overhead
(`bench_overhead.picos`), and whether a per-input counter kind is active
(`counters.uses_input_counts`, reduced to the single modelled column). -/
structure Config where
  minPicos : Nat
  maxPicos : Nat
  sampleCount : Option Nat
  sampleSizeOpt : Option Nat
  skipExtTime : Bool
  precision : Nat
  overhead : Nat
  usesInputCounts : Bool
deriving DecidableEq, Repr

/-- `DEFAULT_SAMPLE_COUNT` (`src/bench/mod.rs` line 29). -/
def DEFAULT_SAMPLE_COUNT : Nat := 100

/-- Modelled from the spec: `BenchOptions::has_samples` (the options
module is not among the embedded sources).  Spec §4.6: "`has_samples()`
is true iff the requested sample count is nonzero (absent counts as
default 100)". -/
def Config.hasSamples (cfg : Config) : Bool :=
  cfg.sampleCount.getD DEFAULT_SAMPLE_COUNT != 0

/-- A recorded sample as pushed at line 523
(`samples.all.push(Sample { duration })`), extended with ghost fields —
not present in the source — recording the mode and the local
`sample_size` variable at the moment of the push, so that history
invariants (claim C6) can be stated. -/
structure SampleG where
  duration : Nat
  gCollect : Bool
  gSize : Nat
deriving DecidableEq, Repr

/-- One loop iteration's environment-determined values: `raw` is
`sample_end.duration_since(sample_start, timer).picos` (the raw timed
interval), `sinceStart` is `sample_end.duration_since(initial_start,
timer).picos` (consumed when `skip_ext_time` is unset), and
`counterTotal` is the `sample_counter_totals` entry tallied over the
sample's inputs for the active per-input counter kind. -/
structure Meas where
  raw : Nat
  sinceStart : Nat
  counterTotal : Nat
deriving DecidableEq, Repr

/-- The mutable state of `bench_loop` at the top of each `while`
iteration: `current_mode`, the `SampleCollection`'s `sample_size` field,
the recorded samples (`samples.all`), the active per-input counter
column, `rem_samples`, and `elapsed_picos`. -/
structure LoopState where
  mode : BenchMode
  collSampleSize : Nat
  samples : List SampleG
  counterColumn : List Nat
  remSamples : Option Nat
  elapsedPicos : Nat
deriving DecidableEq, Repr

/-- `BenchContext::initial_mode` (lines 731–740). -/
def initialMode (isTestAction : Bool) (cfg : Config) : BenchMode :=
  if isTestAction then
    .test
  else
    match cfg.sampleSizeOpt with
    | some s => .collect s
    | none => .tune 1

/-- The `while` condition of `bench_loop` (lines 434–447): stop when the
time budget is depleted; otherwise continue while samples remain or the
time floor `min_time` is unmet. -/
def loopCond (cfg : Config) (st : LoopState) : Bool :=
  if st.elapsedPicos ≥ cfg.maxPicos then false
  else if st.remSamples.getD 1 > 0 then true
  else st.elapsedPicos < cfg.minPicos

/-- One non-`Test` iteration of the `while` body of `bench_loop` (lines
448–551), with `tp` the `timer_precision` value computed at lines
424–425 and `m` this iteration's measurements.

Integer operations follow the source: `sample_size * 2` is a release-mode
`u32` multiplication and wraps modulo `2 ^ 32`; the overhead product is a
`u128` `saturating_mul`; the overhead subtraction and the `rem_samples`
decrement saturate at zero (truncated subtraction); `elapsed_picos`
advances by a `u128` `saturating_add`.  The divisions
`raw_duration.picos / timer_precision.picos` and
`total_count / sample_size` are `u128` divisions, which panic in Rust on
a zero divisor; theorems about Tune runs therefore assume a positive
clock precision. -/
def loopStep (cfg : Config) (tp : Nat) (st : LoopState) (m : Meas) : LoopState :=
  let sampleSize := st.mode.sampleSize
  let rawDuration := if m.raw = 0 then tp else m.raw
  let (mode, samples0, column0, remSamples0) :=
    if st.mode.isTune then
      if rawDuration / tp ≤ 100 then
        (BenchMode.tune (sampleSize * 2 % 2 ^ 32), ([] : List SampleG),
          ([] : List Nat), st.remSamples)
      else
        (BenchMode.collect sampleSize, ([] : List SampleG), ([] : List Nat),
          some (cfg.sampleCount.getD DEFAULT_SAMPLE_COUNT))
    else
      (st.mode, st.samples, st.counterColumn, st.remSamples)
  let sampleOverhead := min (cfg.overhead * sampleSize) (2 ^ 128 - 1)
  let adjusted := rawDuration - sampleOverhead
  let adjustedDuration := if adjusted = 0 then tp else adjusted
  let samples := samples0 ++ [⟨adjustedDuration, mode.isCollect, sampleSize⟩]
  let column :=
    if cfg.usesInputCounts then column0 ++ [m.counterTotal / sampleSize]
    else column0
  let remSamples := remSamples0.map (· - 1)
  let elapsedPicos :=
    if cfg.skipExtTime then
      min (st.elapsedPicos + max rawDuration 1000) (2 ^ 128 - 1)
    else
      m.sinceStart
  { mode := mode, collSampleSize := sampleSize, samples := samples,
    counterColumn := column, remSamples := remSamples,
    elapsedPicos := elapsedPicos }

/-- The `while` loop of `bench_loop`, consuming one `Meas` per
iteration; a finite measurement list models a finite prefix of the run,
so the state reached over each prefix is an observable state. -/
def loopGo (cfg : Config) (tp : Nat) : LoopState → List Meas → LoopState
  | st, [] => st
  | st, m :: rest =>
    if loopCond cfg st then loopGo cfg tp (loopStep cfg tp st m) rest
    else st

/-- The result of `bench_loop`: the context's `did_run` flag and final
state. -/
structure LoopResult where
  didRun : Bool
  state : LoopState
deriving DecidableEq, Repr

/-- `BenchContext::bench_loop` (lines 384–553).  `did_run` is set to
`true` before anything else (line 390).  The short-circuit (lines
407–410) returns with the state untouched.  `rem_samples` starts at the
requested count only when the initial mode is Collect (lines 417–421);
`timer_precision` is measured only when tuning and is
`FineDuration::default()` — zero — otherwise (lines 423–425).  A Test
run records one sample and breaks before pushing anything (lines
472–474), leaving the state unchanged. -/
def benchLoop (cfg : Config) (isTestAction : Bool) (ds : List Meas) : LoopResult :=
  let mode0 := initialMode isTestAction cfg
  let remSamples0 : Option Nat :=
    if mode0.isCollect then some (cfg.sampleCount.getD DEFAULT_SAMPLE_COUNT)
    else none
  let tp := if mode0.isTune then cfg.precision else 0
  let st0 : LoopState :=
    { mode := mode0, collSampleSize := 0, samples := [], counterColumn := [],
      remSamples := remSamples0, elapsedPicos := 0 }
  if cfg.maxPicos = 0 ∨ cfg.hasSamples = false then
    { didRun := true, state := st0 }
  else if mode0.isTest then
    { didRun := true, state := st0 }
  else
    { didRun := true, state := loopGo cfg tp st0 ds }

/-! ## `src/bench/mod.rs`: the sample recorder -/

/-- The static properties of the input type `I` and output type `O`
that select the sample recorder's specialization: `mem::size_of::<I>()`,
`mem::size_of::<O>()`, `mem::needs_drop::<I>()`, and
`mem::needs_drop::<O>()`. -/
structure TypeProps where
  sizeI : Nat
  sizeO : Nat
  dropI : Bool
  dropO : Bool
deriving DecidableEq, Repr

/-- The observable calls of one invocation of the closure returned by
`sample_recorder`: the `i`-th `gen_input` call, the `sample_start` and
`sample_end` timestamp reads, the `i`-th call of `benched`, the drop of
the `i`-th stored output, and the `drop_input` call on the `i`-th
input. -/
inductive Event where
  | genInput (i : Nat)
  | sampleStart
  | benched (i : Nat)
  | sampleEnd
  | dropOutput (i : Nat)
  | dropInput (i : Nat)
deriving DecidableEq, Repr

/-- The drop phase of the recorder's trace (the code after
`sample_end`), by specialization; see `recorderTrace`. -/
def dropPhase (p : TypeProps) (n : Nat) : List Event :=
  if (p.sizeI = 0 ∧ p.sizeO = 0) ∨ (p.sizeI = 0 ∧ p.dropO = false) then
    (List.range n).flatMap (fun i =>
      (if p.sizeO = 0 then [Event.dropOutput i] else [])
        ++ (if p.dropI then [Event.dropInput i] else []))
  else if p.dropO then
    (List.range n).flatMap (fun i =>
      [Event.dropOutput i]
        ++ (if p.dropI then [Event.dropInput i] else []))
  else
    (if p.dropI then (List.range n).map Event.dropInput else [])

/-- The trace of calls of the closure returned by
`BenchContext::sample_recorder` (`src/bench/mod.rs` lines 557–729) for
one sample of size `n`, following the source's case split:

* counted loop (`size_of::<I>() == 0` and either `size_of::<O>() == 0`
  or `!needs_drop::<O>()`, lines 585–628): `gen_input` runs `n` times
  with each input forgotten, the timed loop runs over a range, then per
  iteration a zeroed `O` is dropped when `O` is a ZST and `drop_input`
  is called when `I` needs drop;
* slot pairs (lines 635–685): `defer_store.slots()` yields input/output
  slot pairs exactly when `O` needs drop (`DeferStore::slots` is in the
  defer module; modelled from the spec, §4.2: "N input+output slot pairs
  if the output type needs destruction, or N input-only slots
  otherwise"); inputs are generated and stored, the timed loop writes
  each output into its slot, then per slot the output is dropped
  followed by `drop_input` when `I` needs drop;
* input-only slots (lines 688–719): inputs are generated and stored,
  the timed loop runs, then — only if `I` needs drop — `drop_input`
  runs over all inputs.

`count_input` is invoked on each input right after its `gen_input`
call; it is omitted from the trace since no claim mentions it. -/
def recorderTrace (p : TypeProps) (n : Nat) : List Event :=
  if (p.sizeI = 0 ∧ p.sizeO = 0) ∨ (p.sizeI = 0 ∧ p.dropO = false) then
    (List.range n).map Event.genInput
      ++ [Event.sampleStart]
      ++ (List.range n).map Event.benched
      ++ [Event.sampleEnd]
      ++ (List.range n).flatMap (fun i =>
          (if p.sizeO = 0 then [Event.dropOutput i] else [])
            ++ (if p.dropI then [Event.dropInput i] else []))
  else if p.dropO then
    (List.range n).map Event.genInput
      ++ [Event.sampleStart]
      ++ (List.range n).map Event.benched
      ++ [Event.sampleEnd]
      ++ (List.range n).flatMap (fun i =>
          [Event.dropOutput i]
            ++ (if p.dropI then [Event.dropInput i] else []))
  else
    (List.range n).map Event.genInput
      ++ [Event.sampleStart]
      ++ (List.range n).map Event.benched
      ++ [Event.sampleEnd]
      ++ (if p.dropI then (List.range n).map Event.dropInput else [])

/-- `a` occurs strictly before `b` in the trace `t`. -/
def Precedes (t : List Event) (a b : Event) : Prop :=
  ∃ l1 l2 l3, t = l1 ++ a :: (l2 ++ b :: l3)

/-- Recognizer for `gen_input` calls. -/
def isGenInput : Event → Bool
  | .genInput _ => true
  | _ => false

/-- Recognizer for `benched` calls. -/
def isBenched : Event → Bool
  | .benched _ => true
  | _ => false

/-! ## `src/bench/mod.rs`: `BenchContext::compute_stats` -/

/-- The duration statistics of `Stats` (`sample_count`, `iter_count`,
and the time `StatsSet`); the per-counter statistics are omitted — no
claim concerns them. -/
structure Stats where
  sampleCount : Nat
  iterCount : Nat
  mean : Nat
  fastest : Nat
  slowest : Nat
  median : Nat
deriving DecidableEq, Repr

/-- `SampleCollection::sorted_samples`: the recorded durations sorted
(the source's `sort_unstable` on durations; embedded as insertion sort,
which likewise produces a `≤`-sorted permutation). -/
def sortedSamples (durations : List Nat) : List Nat :=
  durations.insertionSort (· ≤ ·)

/-- `BenchContext::compute_stats` (`src/bench/mod.rs` lines 742–829) on
the recorded sample durations (picoseconds) and the collection's
`sample_size`, duration statistics only.  `iter_count` and
`total_duration` live in the stats module and are modelled from the
spec: "`iter_count = sample_count * sample_size`" and `total_duration`
the sum of sample durations (§4.7).  `checked_div(total_count)
.unwrap_or_default()` is the guarded division; `FineDuration`'s
`/ sample_size` is integer division of the picosecond count by a
positive integer (§3). -/
def computeStats (durations : List Nat) (sampleSize : Nat) : Stats :=
  let sampleCount := durations.length
  let totalCount := sampleCount * sampleSize
  let totalDuration := durations.sum
  let meanDuration := if totalCount = 0 then 0 else totalDuration / totalCount
  let sorted := sortedSamples durations
  let medianSamples := sliceMiddle sorted
  let minDuration := (sorted.head?.map (· / sampleSize)).getD 0
  let maxDuration := (sorted.getLast?.map (· / sampleSize)).getD 0
  let medianDuration :=
    if medianSamples.isEmpty then 0
    else (medianSamples.sum / medianSamples.length) / sampleSize
  { sampleCount := sampleCount, iterCount := totalCount,
    mean := meanDuration, fastest := minDuration, slowest := maxDuration,
    median := medianDuration }

/-! ## Theorems for C9 and C4 -/

/-- Taking one element after dropping `i` yields the `i`-th element. -/
theorem take_one_drop {α : Type} (xs : List α) (i : Nat) (h : i < xs.length) :
    (xs.drop i).take 1 = [xs.get ⟨i, h⟩] := by
  rw [List.drop_eq_getElem_cons h]
  simp only [List.take_succ_cons, List.take_zero, List.get_eq_getElem]

/-- Taking two elements after dropping `i` yields elements `i` and `i + 1`. -/
theorem take_two_drop {α : Type} (xs : List α) (i : Nat) (h : i + 1 < xs.length) :
    (xs.drop i).take 2 = [xs.get ⟨i, by omega⟩, xs.get ⟨i + 1, h⟩] := by
  rw [List.drop_eq_getElem_cons (by omega : i < xs.length),
    List.drop_eq_getElem_cons h]
  simp only [List.take_succ_cons, List.take_zero, List.get_eq_getElem]

/-- C9: For every slice `xs` of length `n`: `slice_middle xs` returns the
empty slice when `xs` is empty, the one-element slice `[xs[n/2]]` when `n`
is odd, and the two-element slice `[xs[n/2 - 1], xs[n/2]]` when `n` is
even. -/
theorem sliceMiddle_ok {α : Type} (xs : List α) :
    (xs.length = 0 → sliceMiddle xs = [])
    ∧ (∀ _h : xs.length % 2 = 1,
        sliceMiddle xs = [xs.get ⟨xs.length / 2, by omega⟩])
    ∧ (∀ _h1 : xs.length ≠ 0, ∀ _h2 : xs.length % 2 = 0,
        sliceMiddle xs =
          [xs.get ⟨xs.length / 2 - 1, by omega⟩, xs.get ⟨xs.length / 2, by omega⟩]) := by
  refine ⟨?_, ?_, ?_⟩
  · intro h
    rw [sliceMiddle, if_pos h]
    exact List.length_eq_zero.mp h
  · intro h
    have hlt : xs.length / 2 < xs.length := by omega
    rw [sliceMiddle, if_neg (by omega), if_neg (by omega), take_one_drop xs _ hlt]
  · intro h1 h2
    have hlt : xs.length / 2 - 1 + 1 < xs.length := by omega
    have hsucc : xs.length / 2 - 1 + 1 = xs.length / 2 := by omega
    rw [sliceMiddle, if_neg (by omega), if_pos h2, take_two_drop xs _ hlt]
    simp only [hsucc]

/-- Witness for C9: the middle of concrete even-, odd-, and zero-length
lists, via `sliceMiddle_ok`. -/
theorem sliceMiddle_ok_witness :
    sliceMiddle [10, 20, 30, 40] = [20, 30]
    ∧ sliceMiddle [10, 20, 30] = [20]
    ∧ sliceMiddle ([] : List Nat) = [] := by
  refine ⟨?_, ?_, ?_⟩
  · have h := (sliceMiddle_ok [10, 20, 30, 40]).2.2 (by decide) (by decide)
    simpa using h
  · have h := (sliceMiddle_ok [10, 20, 30]).2.1 (by decide)
    simpa using h
  · exact (sliceMiddle_ok ([] : List Nat)).1 rfl

/-- C4 counterexample: `SmallDuration`'s `Debug` impl formats zero
picoseconds as `"0ps"` (the `picos < 1_000` branch), not `"0ns"` as the
claim states. -/
theorem smallDurationDebug_zero_ne : smallDurationDebug 0 ≠ "0ns" := by
  decide

/-- C4 amended: Debug-formatting of `SmallDuration` picks the largest
unit whose magnitude is at least 1 (ps below one nanosecond), and for the
values 0, 1, 1_000, 1_500_000, 2_000_000_000 picoseconds produces exactly
`"0ps"`, `"1ps"`, `"1ns"`, `"1.5µs"`, `"2ms"` — zero formats with the
smallest unit, `"0ps"`, not `"0ns"`. -/
theorem smallDurationDebug_values :
    smallDurationDebug 0 = "0ps"
    ∧ smallDurationDebug 1 = "1ps"
    ∧ smallDurationDebug 1000 = "1ns"
    ∧ smallDurationDebug 1500000 = "1.5µs"
    ∧ smallDurationDebug 2000000000 = "2ms" := by
  refine ⟨rfl, rfl, rfl, rfl, rfl⟩

/-! ## Theorems for C3: the configuration short-circuit -/

/-- C3 counterexample: called with `max_time = 0`, `bench_loop` records
no samples but leaves `did_run = true` — the flag is set at line 390,
before the short-circuit at lines 407–410 — so the claimed
`did_run == false` is refuted. -/
theorem benchLoop_shortCircuit_cx :
    (benchLoop ⟨0, 0, none, none, false, 1000, 0, false⟩ false
        [⟨5, 5, 0⟩]).didRun = true
    ∧ (benchLoop ⟨0, 0, none, none, false, 1000, 0, false⟩ false
        [⟨5, 5, 0⟩]).state.samples = [] := by
  decide

/-- C3 amended: whenever `bench_loop` is invoked with options whose
`max_time` is zero or whose requested sample count is zero, it returns
with zero samples recorded — and with `did_run = true`, since the flag
records that `bench_loop` was invoked and is set before the
short-circuit. -/
theorem benchLoop_shortCircuit (cfg : Config) (isTestAction : Bool)
    (ds : List Meas) (h : cfg.maxPicos = 0 ∨ cfg.sampleCount = some 0) :
    (benchLoop cfg isTestAction ds).state.samples = []
    ∧ (benchLoop cfg isTestAction ds).didRun = true := by
  have hsc : cfg.maxPicos = 0 ∨ cfg.hasSamples = false := by
    rcases h with h | h
    · exact Or.inl h
    · exact Or.inr (by simp [Config.hasSamples, h])
  rw [benchLoop]
  simp [if_pos hsc]

/-- Witness for C3 (amended): a concrete zero-`sample_count`
configuration, via `benchLoop_shortCircuit`. -/
theorem benchLoop_shortCircuit_witness :
    (benchLoop ⟨0, 7, some 0, none, false, 1000, 0, false⟩ false
        [⟨5, 5, 0⟩]).state.samples = []
    ∧ (benchLoop ⟨0, 7, some 0, none, false, 1000, 0, false⟩ false
        [⟨5, 5, 0⟩]).didRun = true :=
  benchLoop_shortCircuit _ _ _ (Or.inr rfl)

/-! ## Invariant reasoning for the driver loop -/

/-- Any property preserved by `loopStep` for the measurements consumed
holds of the state `loopGo` reaches. -/
theorem loopGo_invariant (cfg : Config) (tp : Nat) (P : LoopState → Prop) :
    ∀ (ds : List Meas) (st : LoopState), P st →
      (∀ st' m, m ∈ ds → P st' → P (loopStep cfg tp st' m)) →
      P (loopGo cfg tp st ds) := by
  intro ds
  induction ds with
  | nil => intro st h _; exact h
  | cons m rest ih =>
    intro st h hstep
    simp only [loopGo]
    split
    · exact ih _ (hstep st m (List.mem_cons_self m rest) h)
        (fun st' m' hm' => hstep st' m' (List.mem_cons_of_mem m hm'))
    · exact h

/-- How one loop iteration acts on the mode, the collection's
`sample_size` field, and the samples, by case on the current mode:
a convenient unfolding of `loopStep`. -/
theorem loopStep_cases (cfg : Config) (tp : Nat) (st : LoopState) (m : Meas) :
    let raw := if m.raw = 0 then tp else m.raw
    let dur := if raw - min (cfg.overhead * st.mode.sampleSize) (2 ^ 128 - 1) = 0
      then tp else raw - min (cfg.overhead * st.mode.sampleSize) (2 ^ 128 - 1)
    (∀ s, st.mode = BenchMode.tune s → raw / tp ≤ 100 →
      (loopStep cfg tp st m).mode = BenchMode.tune (s * 2 % 2 ^ 32)
      ∧ (loopStep cfg tp st m).collSampleSize = s
      ∧ (loopStep cfg tp st m).samples = [⟨dur, false, s⟩]
      ∧ (loopStep cfg tp st m).remSamples = st.remSamples.map (· - 1))
    ∧ (∀ s, st.mode = BenchMode.tune s → 100 < raw / tp →
      (loopStep cfg tp st m).mode = BenchMode.collect s
      ∧ (loopStep cfg tp st m).collSampleSize = s
      ∧ (loopStep cfg tp st m).samples = [⟨dur, true, s⟩]
      ∧ (loopStep cfg tp st m).remSamples
          = some (cfg.sampleCount.getD DEFAULT_SAMPLE_COUNT - 1))
    ∧ (∀ s, st.mode = BenchMode.collect s →
      (loopStep cfg tp st m).mode = BenchMode.collect s
      ∧ (loopStep cfg tp st m).collSampleSize = s
      ∧ (loopStep cfg tp st m).samples = st.samples ++ [⟨dur, true, s⟩]
      ∧ (loopStep cfg tp st m).remSamples = st.remSamples.map (· - 1))
    ∧ (st.mode = BenchMode.test →
      (loopStep cfg tp st m).mode = BenchMode.test) := by
  refine ⟨?_, ?_, ?_, ?_⟩
  · intro s hs hle
    simp [loopStep, hs, BenchMode.isTune, BenchMode.sampleSize, hle,
      BenchMode.isCollect]
  · intro s hs hgt
    simp [loopStep, hs, BenchMode.isTune, BenchMode.sampleSize,
      Nat.not_le.mpr hgt, BenchMode.isCollect]
  · intro s hs
    simp [loopStep, hs, BenchMode.isTune, BenchMode.sampleSize,
      BenchMode.isCollect]
  · intro hs
    simp [loopStep, hs, BenchMode.isTune, BenchMode.sampleSize]

/-! ## Theorems for C6: the Tune→Collect transition erases Tune samples -/

/-- The C6 invariant: when the mode is Collect, the collection's
`sample_size` field equals the mode's sample size and every recorded
sample was pushed in Collect mode with that size. -/
def CollectSamplesInv (st : LoopState) : Prop :=
  ∀ s, st.mode = BenchMode.collect s →
    st.collSampleSize = s
    ∧ ∀ x ∈ st.samples, x.gCollect = true ∧ x.gSize = s

/-- `loopStep` preserves the C6 invariant. -/
theorem loopStep_collectSamplesInv (cfg : Config) (tp : Nat)
    (st : LoopState) (m : Meas) (h : CollectSamplesInv st) :
    CollectSamplesInv (loopStep cfg tp st m) := by
  have hc := loopStep_cases cfg tp st m
  intro s hs
  match hmode : st.mode with
  | BenchMode.test =>
    exact absurd (hs ▸ hc.2.2.2 hmode) (by simp)
  | BenchMode.tune t =>
    by_cases hle : (if m.raw = 0 then tp else m.raw) / tp ≤ 100
    · obtain ⟨h1, _, _, _⟩ := hc.1 t hmode hle
      rw [hs] at h1
      exact absurd h1 (by simp)
    · obtain ⟨h1, h2, h3, _⟩ := hc.2.1 t hmode (Nat.not_le.mp hle)
      rw [hs] at h1
      obtain rfl : s = t := by injection h1
      refine ⟨h2, ?_⟩
      intro x hx
      rw [h3] at hx
      simp only [List.mem_singleton] at hx
      subst hx
      exact ⟨rfl, rfl⟩
  | BenchMode.collect c =>
    obtain ⟨h1, h2, h3, _⟩ := hc.2.2.1 c hmode
    rw [hs] at h1
    obtain rfl : s = c := by injection h1
    refine ⟨h2, ?_⟩
    intro x hx
    rw [h3] at hx
    rcases List.mem_append.mp hx with hx | hx
    · exact (h _ hmode).2 x hx
    · simp only [List.mem_singleton] at hx
      subst hx
      exact ⟨rfl, rfl⟩

/-- C6: at every observable moment after the driver transitions from
Tune to Collect (a run whose `sample_size` option is absent, observed in
Collect mode — every state `bench_loop` passes through is the result of
running it on a prefix of the measurement stream, so quantifying over
all streams covers every observable moment), the sample collection
contains only samples recorded in Collect mode, and they all carry the
single currently active `sample_size`. -/
theorem collect_only_collect_samples (cfg : Config) (ds : List Meas) (s : Nat)
    (hsz : cfg.sampleSizeOpt = none)
    (hmode : (benchLoop cfg false ds).state.mode = BenchMode.collect s) :
    (benchLoop cfg false ds).state.collSampleSize = s
    ∧ ∀ x ∈ (benchLoop cfg false ds).state.samples,
        x.gCollect = true ∧ x.gSize = s := by
  have hrun : ∀ st, st = (benchLoop cfg false ds).state → CollectSamplesInv st := by
    intro st hst
    rw [benchLoop] at hst
    simp only [initialMode, hsz] at hst
    by_cases hsc : cfg.maxPicos = 0 ∨ cfg.hasSamples = false
    · rw [if_pos hsc] at hst
      subst hst
      intro u hu
      exact absurd hu (by simp)
    · rw [if_neg hsc] at hst
      simp only [BenchMode.isTest, BenchMode.isTune, BenchMode.isCollect,
        if_neg (by simp : ¬False), Bool.false_eq_true, if_false] at hst
      subst hst
      refine loopGo_invariant cfg cfg.precision CollectSamplesInv ds _ ?_ ?_
      · intro u hu
        exact absurd hu (by simp)
      · intro st' m _ hP
        exact loopStep_collectSamplesInv cfg cfg.precision st' m hP
  exact hrun (benchLoop cfg false ds).state rfl s hmode

/-- Witness for C6: a concrete tuner-driven run that transitions to
Collect at `sample_size = 4`, via `collect_only_collect_samples`. -/
theorem collect_only_collect_samples_witness :
    (benchLoop ⟨0, 10 ^ 18, none, none, false, 1, 0, false⟩ false
      [⟨50, 50, 0⟩, ⟨100, 200, 0⟩, ⟨150, 400, 0⟩, ⟨70, 500, 0⟩]).state.collSampleSize = 4
    ∧ ∀ x ∈ (benchLoop ⟨0, 10 ^ 18, none, none, false, 1, 0, false⟩ false
        [⟨50, 50, 0⟩, ⟨100, 200, 0⟩, ⟨150, 400, 0⟩, ⟨70, 500, 0⟩]).state.samples,
        x.gCollect = true ∧ x.gSize = 4 :=
  collect_only_collect_samples _ _ 4 rfl (by decide)

/-! ## Theorems for C10: tuner sample sizes under `u32` doubling -/

/-- C10 counterexample: a tuner-driven run whose 32 consecutive Tune
steps each double `sample_size` (every raw interval reads as one timer
precision, so `precision_multiple = 1 ≤ 100`); the `u32` multiplication
`sample_size * 2` wraps modulo `2 ^ 32`, so after the 32nd step the held
`sample_size` is `0` — not a power of two. -/
theorem tuneSampleSize_cx :
    (benchLoop ⟨0, 10 ^ 18, none, none, false, 1, 0, false⟩ false
        (List.replicate 32 ⟨0, 0, 0⟩)).state.mode = BenchMode.tune 0
    ∧ ¬ Nat.isPowerOfTwo
        ((benchLoop ⟨0, 10 ^ 18, none, none, false, 1, 0, false⟩ false
          (List.replicate 32 ⟨0, 0, 0⟩)).state.mode.sampleSize) := by
  refine ⟨by decide, ?_⟩
  rintro ⟨k, hk⟩
  have h2 : (benchLoop ⟨0, 10 ^ 18, none, none, false, 1, 0, false⟩ false
      (List.replicate 32 ⟨0, 0, 0⟩)).state.mode.sampleSize = 0 := by decide
  rw [h2] at hk
  have := Nat.pos_pow_of_pos (n := 2) k (by norm_num)
  omega

/-- The C10 invariant (amended): the sample size held by a Tune or
Collect mode is `2 ^ k` for some `k < 32`, or `0` once the doubling has
wrapped. -/
def SampleSizePow (md : BenchMode) : Prop :=
  ∀ s, (md = BenchMode.tune s ∨ md = BenchMode.collect s) →
    s = 0 ∨ ∃ k, k < 32 ∧ s = 2 ^ k

/-- `loopStep` preserves the amended C10 invariant. -/
theorem loopStep_sampleSizePow (cfg : Config) (tp : Nat)
    (st : LoopState) (m : Meas) (h : SampleSizePow st.mode) :
    SampleSizePow (loopStep cfg tp st m).mode := by
  have hc := loopStep_cases cfg tp st m
  intro s hs
  match hmode : st.mode with
  | BenchMode.test =>
    have := hc.2.2.2 hmode
    rcases hs with hs | hs <;> rw [hs] at this <;> exact absurd this (by simp)
  | BenchMode.tune t =>
    by_cases hle : (if m.raw = 0 then tp else m.raw) / tp ≤ 100
    · obtain ⟨h1, _, _, _⟩ := hc.1 t hmode hle
      rcases hs with hs | hs <;> rw [hs] at h1
      · obtain rfl : s = t * 2 % 2 ^ 32 := by injection h1
        rcases h t (Or.inl hmode) with rfl | ⟨k, hk, rfl⟩
        · exact Or.inl (by norm_num)
        · by_cases hk31 : k < 31
          · refine Or.inr ⟨k + 1, by omega, ?_⟩
            have hlt : 2 ^ k * 2 < 2 ^ 32 := by
              calc 2 ^ k * 2 = 2 ^ (k + 1) := by ring
              _ < 2 ^ 32 := Nat.pow_lt_pow_right (by norm_num) (by omega)
            rw [Nat.mod_eq_of_lt hlt]
            ring
          · obtain rfl : k = 31 := by omega
            refine Or.inl ?_
            norm_num
      · exact absurd h1 (by simp)
    · obtain ⟨h1, _, _, _⟩ := hc.2.1 t hmode (Nat.not_le.mp hle)
      rcases hs with hs | hs <;> rw [hs] at h1
      · exact absurd h1 (by simp)
      · obtain rfl : s = t := by injection h1
        exact h s (Or.inl hmode)
  | BenchMode.collect c =>
    obtain ⟨h1, _, _, _⟩ := hc.2.2.1 c hmode
    rcases hs with hs | hs <;> rw [hs] at h1
    · exact absurd h1 (by simp)
    · obtain rfl : s = c := by injection h1
      exact h s (Or.inr hmode)

/-- C10 amended: when the sample size is chosen by the tuner
(`sample_size` option absent, action not test), the `sample_size` held in
Tune mode and carried into Collect is `2 ^ k` for some `k < 32` — it
starts at 1 and each Tune step doubles it — except that the doubling is
a wrapping `u32` multiplication, so after 32 consecutive doublings the
held size is `0` (no longer a power of two). -/
theorem tuneSampleSize_pow (cfg : Config) (ds : List Meas) (s : Nat)
    (hsz : cfg.sampleSizeOpt = none)
    (hs : (benchLoop cfg false ds).state.mode = BenchMode.tune s
      ∨ (benchLoop cfg false ds).state.mode = BenchMode.collect s) :
    s = 0 ∨ ∃ k, k < 32 ∧ s = 2 ^ k := by
  have hrun : SampleSizePow (benchLoop cfg false ds).state.mode := by
    rw [benchLoop]
    simp only [initialMode, hsz]
    have h0 : SampleSizePow (BenchMode.tune 1) := by
      intro u hu
      rcases hu with hu | hu
      · obtain rfl : u = 1 := by injection hu with hu'; omega
        exact Or.inr ⟨0, by omega, by norm_num⟩
      · exact absurd hu (by simp)
    by_cases hsc : cfg.maxPicos = 0 ∨ cfg.hasSamples = false
    · rw [if_pos hsc]
      exact h0
    · rw [if_neg hsc]
      simp only [BenchMode.isTest, Bool.false_eq_true, if_false]
      exact loopGo_invariant cfg _ (fun st => SampleSizePow st.mode) ds _ h0
        (fun st' m _ hP => loopStep_sampleSizePow cfg _ st' m hP)
  exact hrun s hs

/-- Witness for C10 (amended): the run of `tuneSampleSize_cx` observed
one step earlier holds `sample_size = 2 ^ 31`, via `tuneSampleSize_pow`. -/
theorem tuneSampleSize_pow_witness :
    (2 : Nat) ^ 31 = 0 ∨ ∃ k, k < 32 ∧ (2 : Nat) ^ 31 = 2 ^ k :=
  tuneSampleSize_pow ⟨0, 10 ^ 18, none, none, false, 1, 0, false⟩
    (List.replicate 31 ⟨0, 0, 0⟩) (2 ^ 31) rfl (Or.inl (by decide))

/-! ## Theorems for C1: the precision floor on recorded durations -/

/-- C1 counterexample: a run whose `sample_size` option is set starts in
Collect mode, so `timer_precision` is `FineDuration::default()` — zero,
not the clock's precision (lines 423–425).  With a clock of precision
1000 ps reading a zero raw interval, the appended sample's duration is
`0 < 1000`: the zero interval is *not* replaced by the clock precision. -/
theorem sampleFloor_cx :
    ((benchLoop ⟨0, 10 ^ 18, some 1, some 1, false, 1000, 0, false⟩ false
        [⟨0, 0, 0⟩]).state.samples.all
      fun x => 1000 ≤ x.duration) = false
    ∧ (benchLoop ⟨0, 10 ^ 18, some 1, some 1, false, 1000, 0, false⟩ false
        [⟨0, 0, 0⟩]).state.samples.length = 1 := by
  decide

/-- The C1 invariant (amended): every recorded duration is at least the
clock precision. -/
def DurationsFloored (precision : Nat) (st : LoopState) : Prop :=
  ∀ x ∈ st.samples, precision ≤ x.duration

/-- `loopStep` preserves the amended C1 invariant when `timer_precision`
is the (positive) clock precision, the per-iteration overhead is zero,
and the clock's nonzero readings are at least its precision. -/
theorem loopStep_durationsFloored (cfg : Config) (st : LoopState) (m : Meas)
    (hoh : cfg.overhead = 0) (hp : 0 < cfg.precision)
    (hm : m.raw = 0 ∨ cfg.precision ≤ m.raw)
    (h : DurationsFloored cfg.precision st) :
    DurationsFloored cfg.precision (loopStep cfg cfg.precision st m) := by
  have hraw : cfg.precision ≤ (if m.raw = 0 then cfg.precision else m.raw) := by
    rcases hm with hm | hm
    · simp [hm]
    · have : m.raw ≠ 0 := by omega
      simp [this, hm]
  have hdur : cfg.precision ≤
      (if (if m.raw = 0 then cfg.precision else m.raw)
          - min (cfg.overhead * st.mode.sampleSize) (2 ^ 128 - 1) = 0
        then cfg.precision
        else (if m.raw = 0 then cfg.precision else m.raw)
          - min (cfg.overhead * st.mode.sampleSize) (2 ^ 128 - 1)) := by
    rw [hoh]
    simp only [Nat.zero_mul, Nat.zero_min, Nat.sub_zero]
    rcases hm with hm | hm
    · simp [hm]
    · have hne : m.raw ≠ 0 := by omega
      simp only [if_neg hne]
      exact hm
  have hc := loopStep_cases cfg cfg.precision st m
  intro x hx
  match hmode : st.mode with
  | BenchMode.test =>
    -- a Test-mode state never reaches `loopStep` in `bench_loop`; the
    -- step still pushes one floored sample on top of the floored ones
    have hsamp : (loopStep cfg cfg.precision st m).samples
        = st.samples ++ [⟨(if (if m.raw = 0 then cfg.precision else m.raw)
            - min (cfg.overhead * st.mode.sampleSize) (2 ^ 128 - 1) = 0
          then cfg.precision
          else (if m.raw = 0 then cfg.precision else m.raw)
            - min (cfg.overhead * st.mode.sampleSize) (2 ^ 128 - 1)),
          BenchMode.test.isCollect, BenchMode.test.sampleSize⟩] := by
      simp [loopStep, hmode, BenchMode.isTune, BenchMode.isCollect,
        BenchMode.sampleSize]
    rw [hsamp] at hx
    rcases List.mem_append.mp hx with hx | hx
    · exact h x hx
    · simp only [List.mem_singleton] at hx
      subst hx
      simpa [hmode] using hdur
  | BenchMode.tune t =>
    by_cases hle : (if m.raw = 0 then cfg.precision else m.raw)
        / cfg.precision ≤ 100
    · obtain ⟨_, _, h3, _⟩ := hc.1 t hmode hle
      rw [h3] at hx
      simp only [List.mem_singleton] at hx
      subst hx
      simpa [hmode] using hdur
    · obtain ⟨_, _, h3, _⟩ := hc.2.1 t hmode (Nat.not_le.mp hle)
      rw [h3] at hx
      simp only [List.mem_singleton] at hx
      subst hx
      simpa [hmode] using hdur
  | BenchMode.collect c =>
    obtain ⟨_, _, h3, _⟩ := hc.2.2.1 c hmode
    rw [h3] at hx
    rcases List.mem_append.mp hx with hx | hx
    · exact h x hx
    · simp only [List.mem_singleton] at hx
      subst hx
      simpa [hmode] using hdur

/-- C1 amended: the zero-duration floors substitute `timer_precision`,
which equals the clock's precision only when the run begins in Tune mode
(`sample_size` option absent) and is zero otherwise; in a Tune-initial
run with zero calibrated overhead, against a clock whose nonzero raw
intervals are at least its (positive) precision, every recorded sample
duration is at least the clock precision. -/
theorem sampleFloor_tuneInitial (cfg : Config) (ds : List Meas)
    (hsz : cfg.sampleSizeOpt = none) (hoh : cfg.overhead = 0)
    (hp : 0 < cfg.precision)
    (hclock : ∀ m ∈ ds, m.raw = 0 ∨ cfg.precision ≤ m.raw) :
    ∀ x ∈ (benchLoop cfg false ds).state.samples,
      cfg.precision ≤ x.duration := by
  have hrun : DurationsFloored cfg.precision (benchLoop cfg false ds).state := by
    rw [benchLoop]
    simp only [initialMode, hsz]
    have h0 : DurationsFloored cfg.precision
        ⟨BenchMode.tune 1, 0, [], [], none, 0⟩ := by
      intro u hu
      exact absurd hu (by simp)
    by_cases hsc : cfg.maxPicos = 0 ∨ cfg.hasSamples = false
    · rw [if_pos hsc]
      exact h0
    · rw [if_neg hsc]
      simp only [BenchMode.isTest, Bool.false_eq_true, if_false,
        BenchMode.isTune, BenchMode.isCollect, if_true]
      exact loopGo_invariant cfg _ (DurationsFloored cfg.precision) ds _ h0
        (fun st' m hm hP =>
          loopStep_durationsFloored cfg st' m hoh hp (hclock m hm) hP)
  exact hrun

/-- Witness for C1 (amended): in the tuner-driven run over concrete
readings `0, 150, 70` with clock precision 50, the recorded sample
(duration 70, pushed while tuning at size 4) is floored at the
precision, via `sampleFloor_tuneInitial`. -/
theorem sampleFloor_tuneInitial_witness :
    (SampleG.mk 70 false 4)
        ∈ (benchLoop ⟨0, 10 ^ 18, none, none, false, 50, 0, false⟩ false
          [⟨0, 0, 0⟩, ⟨150, 200, 0⟩, ⟨70, 300, 0⟩]).state.samples
    ∧ (50 : Nat) ≤ (SampleG.mk 70 false 4).duration :=
  ⟨by decide,
    sampleFloor_tuneInitial ⟨0, 10 ^ 18, none, none, false, 50, 0, false⟩
      [⟨0, 0, 0⟩, ⟨150, 200, 0⟩, ⟨70, 300, 0⟩] rfl rfl (by norm_num)
      (by decide) (SampleG.mk 70 false 4) (by decide)⟩

/-! ## Theorems for C2: the tuning iteration -/

/-- C2 counterexample: with clock precision 2 and a raw sample duration
of 201 picoseconds, `201 > 100 × 2`, so the claim says the driver
transitions to Collect — but the source compares
`raw_duration.picos / timer_precision.picos <= 100` with integer
division (`201 / 2 = 100`), so it doubles `sample_size` and remains in
Tune mode. -/
theorem tuneGate_cx :
    100 * 2 < 201
    ∧ (benchLoop ⟨0, 10 ^ 18, none, none, false, 2, 0, false⟩ false
        [⟨201, 0, 0⟩]).state.mode = BenchMode.tune 2 := by
  decide

/-- C2 amended: on every tuning iteration, after clearing prior samples
and counter columns, the driver compares the (zero-floored) raw sample
duration against the timer precision by integer division: if
`raw_duration / precision ≤ 100` — that is, `raw_duration <
101 × precision` — it doubles `sample_size` (a wrapping `u32`
multiplication) and remains in Tune mode with `remaining_samples`
untouched; otherwise it transitions to Collect with the current
`sample_size` and initializes `remaining_samples` to the requested
sample count (default 100). -/
theorem tuneStep_ok (cfg : Config) (st : LoopState) (m : Meas) (s : Nat)
    (hmode : st.mode = BenchMode.tune s) (_hp : 0 < cfg.precision) :
    (loopStep cfg cfg.precision st m).samples.length = 1
    ∧ (loopStep cfg cfg.precision st m).counterColumn.length
        = (if cfg.usesInputCounts then 1 else 0)
    ∧ ((if m.raw = 0 then cfg.precision else m.raw) / cfg.precision ≤ 100 →
        (loopStep cfg cfg.precision st m).mode
            = BenchMode.tune (s * 2 % 2 ^ 32)
        ∧ (loopStep cfg cfg.precision st m).remSamples
            = st.remSamples.map (· - 1))
    ∧ (100 < (if m.raw = 0 then cfg.precision else m.raw) / cfg.precision →
        (loopStep cfg cfg.precision st m).mode = BenchMode.collect s
        ∧ (loopStep cfg cfg.precision st m).remSamples
            = some (cfg.sampleCount.getD DEFAULT_SAMPLE_COUNT - 1)) := by
  have hc := loopStep_cases cfg cfg.precision st m
  by_cases hle : (if m.raw = 0 then cfg.precision else m.raw)
      / cfg.precision ≤ 100
  · obtain ⟨h1, _, h3, h4⟩ := hc.1 s hmode hle
    refine ⟨by rw [h3]; rfl, ?_, fun _ => ⟨h1, h4⟩,
      fun hgt => absurd hle (Nat.not_le.mpr hgt)⟩
    simp [loopStep, hmode, BenchMode.isTune, hle]
    split <;> rfl
  · obtain ⟨h1, _, h3, h4⟩ := hc.2.1 s hmode (Nat.not_le.mp hle)
    refine ⟨by rw [h3]; rfl, ?_, fun hle' => absurd hle' hle,
      fun _ => ⟨h1, h4⟩⟩
    simp [loopStep, hmode, BenchMode.isTune, hle]
    split <;> rfl

/-- Witness for C2 (amended): both gate outcomes at precision 2 — a raw
duration of 201 (`201 / 2 = 100`) doubles, a raw duration of 202
(`202 / 2 = 101`) transitions to Collect — via `tuneStep_ok`. -/
theorem tuneStep_ok_witness :
    (loopStep ⟨0, 10 ^ 18, none, none, false, 2, 0, false⟩ 2
        ⟨BenchMode.tune 1, 1, [], [], none, 0⟩ ⟨201, 0, 0⟩).mode
      = BenchMode.tune 2
    ∧ (loopStep ⟨0, 10 ^ 18, none, none, false, 2, 0, false⟩ 2
        ⟨BenchMode.tune 1, 1, [], [], none, 0⟩ ⟨202, 0, 0⟩).mode
      = BenchMode.collect 1
    ∧ (loopStep ⟨0, 10 ^ 18, none, none, false, 2, 0, false⟩ 2
        ⟨BenchMode.tune 1, 1, [], [], none, 0⟩ ⟨202, 0, 0⟩).remSamples
      = some 99 := by
  refine ⟨?_, ?_, ?_⟩
  · have h := (tuneStep_ok ⟨0, 10 ^ 18, none, none, false, 2, 0, false⟩
      ⟨BenchMode.tune 1, 1, [], [], none, 0⟩ ⟨201, 0, 0⟩ 1 rfl
      (by norm_num)).2.2.1 (by decide)
    exact h.1
  · have h := (tuneStep_ok ⟨0, 10 ^ 18, none, none, false, 2, 0, false⟩
      ⟨BenchMode.tune 1, 1, [], [], none, 0⟩ ⟨202, 0, 0⟩ 1 rfl
      (by norm_num)).2.2.2 (by decide)
    exact h.1
  · have h := (tuneStep_ok ⟨0, 10 ^ 18, none, none, false, 2, 0, false⟩
      ⟨BenchMode.tune 1, 1, [], [], none, 0⟩ ⟨202, 0, 0⟩ 1 rfl
      (by norm_num)).2.2.2 (by decide)
    exact h.2

/-! ## Theorems for C7 and C8: `compute_stats` -/

/-- C7: `compute_stats` returns `iter_count = sample_count ×
sample_size`, and a mean time equal to the sum of sample durations
divided by `iter_count` in integer picoseconds, zero when `iter_count`
is zero. -/
theorem computeStats_iterCount_mean (durations : List Nat) (sampleSize : Nat) :
    (computeStats durations sampleSize).iterCount
        = durations.length * sampleSize
    ∧ (computeStats durations sampleSize).mean
        = durations.sum / (durations.length * sampleSize)
    ∧ ((computeStats durations sampleSize).iterCount = 0 →
        (computeStats durations sampleSize).mean = 0) := by
  refine ⟨rfl, ?_, ?_⟩
  · show (if durations.length * sampleSize = 0 then 0
        else durations.sum / (durations.length * sampleSize))
      = durations.sum / (durations.length * sampleSize)
    split
    · rename_i h
      rw [h, Nat.div_zero]
    · rfl
  · intro h
    have h' : durations.length * sampleSize = 0 := h
    show (if durations.length * sampleSize = 0 then 0
        else durations.sum / (durations.length * sampleSize)) = 0
    rw [if_pos h']

/-- Witness for C7: concrete statistics for three samples of size 2,
via `computeStats_iterCount_mean`. -/
theorem computeStats_iterCount_mean_witness :
    (computeStats [5, 1, 3] 2).iterCount = 3 * 2
    ∧ (computeStats [5, 1, 3] 2).mean = 9 / 6 := by
  have h := computeStats_iterCount_mean [5, 1, 3] 2
  exact ⟨h.1, by simpa using h.2.1⟩

/-- In a `≤`-sorted list, values at increasing indices are increasing. -/
theorem sorted_le_of_indices {l : List Nat} (h : l.Sorted (· ≤ ·))
    {i j : Nat} (hi : i < l.length) (hj : j < l.length) (hij : i ≤ j) :
    l.get ⟨i, hi⟩ ≤ l.get ⟨j, hj⟩ := by
  rcases Nat.eq_or_lt_of_le hij with rfl | hlt
  · exact Nat.le_refl _
  · exact h.rel_get_of_lt hlt

/-- The median expression of `compute_stats` on a two-element middle. -/
theorem median_expr_two (a b sz : Nat) :
    (if ([a, b] : List Nat).isEmpty then 0
      else (([a, b] : List Nat).sum / ([a, b] : List Nat).length) / sz)
    = ((a + b) / 2) / sz := by
  simp

/-- The median expression of `compute_stats` on a one-element middle. -/
theorem median_expr_one (a sz : Nat) :
    (if ([a] : List Nat).isEmpty then 0
      else (([a] : List Nat).sum / ([a] : List Nat).length) / sz)
    = a / sz := by
  simp

/-- C8: for the sorted sample collection, `compute_stats` satisfies
`fastest ≤ median ≤ slowest` in picoseconds — `fastest` and `slowest`
being the first and last sorted sample durations divided by
`sample_size`, `median` the integer average of the middle one or two
sorted durations divided by `sample_size` — with an empty collection
yielding median zero. -/
theorem computeStats_order (durations : List Nat) (sampleSize : Nat)
    (_h : 0 < sampleSize) :
    (computeStats durations sampleSize).fastest
        ≤ (computeStats durations sampleSize).median
    ∧ (computeStats durations sampleSize).median
        ≤ (computeStats durations sampleSize).slowest
    ∧ (durations = [] → (computeStats durations sampleSize).median = 0) := by
  have hf : (computeStats durations sampleSize).fastest
      = ((sortedSamples durations).head?.map (· / sampleSize)).getD 0 := rfl
  have hsl : (computeStats durations sampleSize).slowest
      = ((sortedSamples durations).getLast?.map (· / sampleSize)).getD 0 := rfl
  have hme : (computeStats durations sampleSize).median
      = (if (sliceMiddle (sortedSamples durations)).isEmpty then 0
        else ((sliceMiddle (sortedSamples durations)).sum
          / (sliceMiddle (sortedSamples durations)).length) / sampleSize) := rfl
  have hsorted : (sortedSamples durations).Sorted (· ≤ ·) :=
    List.sorted_insertionSort _ _
  by_cases hnil : sortedSamples durations = []
  · rw [hf, hsl, hme, hnil]
    refine ⟨by simp [sliceMiddle], by simp [sliceMiddle], fun _ => ?_⟩
    simp [sliceMiddle]
  · have hpos : 0 < (sortedSamples durations).length :=
      List.length_pos.mpr hnil
    have hhead : (sortedSamples durations).head?
        = some ((sortedSamples durations).get ⟨0, hpos⟩) := by
      rw [List.head?_eq_getElem?, List.getElem?_eq_getElem hpos,
        List.get_eq_getElem]
    have hlastlt : (sortedSamples durations).length - 1
        < (sortedSamples durations).length := by omega
    have hlast : (sortedSamples durations).getLast?
        = some ((sortedSamples durations).get ⟨_, hlastlt⟩) := by
      rw [List.getLast?_eq_getElem?, List.getElem?_eq_getElem hlastlt,
        List.get_eq_getElem]
    have hnonempty : durations ≠ [] := by
      intro hd
      exact hnil (by rw [hd]; rfl)
    by_cases hpar : (sortedSamples durations).length % 2 = 0
    · -- even length: two middle elements
      have hia : (sortedSamples durations).length / 2 - 1
          < (sortedSamples durations).length := by omega
      have hib : (sortedSamples durations).length / 2 - 1 + 1
          < (sortedSamples durations).length := by omega
      have hmid : sliceMiddle (sortedSamples durations)
          = [(sortedSamples durations).get
              ⟨(sortedSamples durations).length / 2 - 1, hia⟩,
             (sortedSamples durations).get
              ⟨(sortedSamples durations).length / 2 - 1 + 1, hib⟩] := by
        rw [sliceMiddle, if_neg (by omega), if_pos hpar,
          take_two_drop _ _ hib]
      have hab : (sortedSamples durations).get
            ⟨(sortedSamples durations).length / 2 - 1, hia⟩
          ≤ (sortedSamples durations).get
            ⟨(sortedSamples durations).length / 2 - 1 + 1, hib⟩ :=
        sorted_le_of_indices hsorted hia hib (by omega)
      have h0a : (sortedSamples durations).get ⟨0, hpos⟩
          ≤ (sortedSamples durations).get
            ⟨(sortedSamples durations).length / 2 - 1, hia⟩ :=
        sorted_le_of_indices hsorted hpos hia (by omega)
      have hbl : (sortedSamples durations).get
            ⟨(sortedSamples durations).length / 2 - 1 + 1, hib⟩
          ≤ (sortedSamples durations).get
            ⟨(sortedSamples durations).length - 1, hlastlt⟩ :=
        sorted_le_of_indices hsorted hib hlastlt (by omega)
      rw [hf, hsl, hme, hmid, hhead, hlast, median_expr_two]
      refine ⟨Nat.div_le_div_right (by omega), Nat.div_le_div_right (by omega),
        fun hd => absurd hd hnonempty⟩
    · -- odd length: one middle element
      have hlt : (sortedSamples durations).length / 2
          < (sortedSamples durations).length := by omega
      have hmid : sliceMiddle (sortedSamples durations)
          = [(sortedSamples durations).get
              ⟨(sortedSamples durations).length / 2, hlt⟩] := by
        rw [sliceMiddle, if_neg (by omega), if_neg hpar,
          take_one_drop _ _ hlt]
      have h0a : (sortedSamples durations).get ⟨0, hpos⟩
          ≤ (sortedSamples durations).get
            ⟨(sortedSamples durations).length / 2, hlt⟩ :=
        sorted_le_of_indices hsorted hpos hlt (by omega)
      have hbl : (sortedSamples durations).get
            ⟨(sortedSamples durations).length / 2, hlt⟩
          ≤ (sortedSamples durations).get
            ⟨(sortedSamples durations).length - 1, hlastlt⟩ :=
        sorted_le_of_indices hsorted hlt hlastlt (by omega)
      rw [hf, hsl, hme, hmid, hhead, hlast, median_expr_one]
      exact ⟨Nat.div_le_div_right h0a, Nat.div_le_div_right hbl,
        fun hd => absurd hd hnonempty⟩

/-- Witness for C8: the ordering on a concrete even-length collection,
via `computeStats_order`. -/
theorem computeStats_order_witness :
    (computeStats [4, 2, 6, 8] 2).fastest ≤ (computeStats [4, 2, 6, 8] 2).median
    ∧ (computeStats [4, 2, 6, 8] 2).median ≤ (computeStats [4, 2, 6, 8] 2).slowest :=
  ⟨(computeStats_order [4, 2, 6, 8] 2 (by norm_num)).1,
   (computeStats_order [4, 2, 6, 8] 2 (by norm_num)).2.1⟩

/-! ## Theorems for C5: the sample recorder's call discipline -/

/-- `recorderTrace` decomposes into the generation phase,
`sample_start`, the timed loop, `sample_end`, and the drop phase. -/
theorem recorderTrace_shape (p : TypeProps) (n : Nat) :
    recorderTrace p n
      = (List.range n).map Event.genInput
        ++ Event.sampleStart ::
          ((List.range n).map Event.benched
            ++ Event.sampleEnd :: dropPhase p n) := by
  rw [recorderTrace, dropPhase]
  split_ifs <;> simp

/-- Splitting `List.range` at a member. -/
theorem range_split {i n : Nat} (h : i < n) :
    ∃ l1 l2, List.range n = l1 ++ i :: l2 := by
  induction n with
  | zero => omega
  | succ m ih =>
    rcases Nat.lt_succ_iff_lt_or_eq.mp h with h' | rfl
    · obtain ⟨l1, l2, hl⟩ := ih h'
      exact ⟨l1, l2 ++ [m], by rw [List.range_succ, hl]; simp⟩
    · exact ⟨List.range i, [], by rw [List.range_succ]⟩

/-- Splitting a `flatMap` at a member of the index list. -/
theorem flatMap_split {α β : Type} (f : α → List β) {l l1 l2 : List α}
    {a : α} (hl : l = l1 ++ a :: l2) :
    l.flatMap f = l1.flatMap f ++ (f a ++ l2.flatMap f) := by
  subst hl
  simp

/-- Introduction for `Precedes` from an explicit decomposition. -/
theorem precedes_intro {t : List Event} {a b : Event}
    (l1 l2 l3 : List Event) (h : t = l1 ++ a :: (l2 ++ b :: l3)) :
    Precedes t a b :=
  ⟨l1, l2, l3, h⟩

/-- Every element of the drop phase is a `dropOutput` or `dropInput`. -/
theorem mem_dropPhase_cases {p : TypeProps} {n : Nat} {e : Event}
    (he : e ∈ dropPhase p n) :
    (∃ i, e = Event.dropOutput i) ∨ (∃ i, e = Event.dropInput i) := by
  rw [dropPhase] at he
  split_ifs at he <;> aesop

/-- A `dropOutput i` in the drop phase has `i < n`. -/
theorem dropOutput_index_lt {p : TypeProps} {n i : Nat}
    (h : Event.dropOutput i ∈ dropPhase p n) : i < n := by
  rw [dropPhase] at h
  split_ifs at h <;> aesop

/-- A `dropInput i` in the drop phase has `i < n`. -/
theorem dropInput_index_lt {p : TypeProps} {n i : Nat}
    (h : Event.dropInput i ∈ dropPhase p n) : i < n := by
  rw [dropPhase] at h
  split_ifs at h <;> aesop

/-- A `dropOutput` in the trace lies in the drop phase. -/
theorem dropOutput_mem_dropPhase {p : TypeProps} {n i : Nat}
    (h : Event.dropOutput i ∈ recorderTrace p n) :
    Event.dropOutput i ∈ dropPhase p n := by
  rw [recorderTrace_shape] at h
  simp only [List.mem_append, List.mem_cons, List.mem_map] at h
  rcases h with ⟨j, -, hj⟩ | h | ⟨j, -, hj⟩ | h | h
  · exact absurd hj (by simp)
  · exact absurd h (by simp)
  · exact absurd hj (by simp)
  · exact absurd h (by simp)
  · exact h

/-- A `dropInput` in the trace lies in the drop phase. -/
theorem dropInput_mem_dropPhase {p : TypeProps} {n i : Nat}
    (h : Event.dropInput i ∈ recorderTrace p n) :
    Event.dropInput i ∈ dropPhase p n := by
  rw [recorderTrace_shape] at h
  simp only [List.mem_append, List.mem_cons, List.mem_map] at h
  rcases h with ⟨j, -, hj⟩ | h | ⟨j, -, hj⟩ | h | h
  · exact absurd hj (by simp)
  · exact absurd h (by simp)
  · exact absurd hj (by simp)
  · exact absurd h (by simp)
  · exact h

/-- Each `gen_input` call precedes `sample_start`. -/
theorem genInput_precedes_start (p : TypeProps) {i n : Nat} (h : i < n) :
    Precedes (recorderTrace p n) (Event.genInput i) Event.sampleStart := by
  obtain ⟨l1, l2, hl⟩ := range_split h
  have hg : (List.range n).map Event.genInput
      = l1.map Event.genInput ++ Event.genInput i :: l2.map Event.genInput := by
    rw [hl]
    simp
  refine precedes_intro (l1.map Event.genInput) (l2.map Event.genInput)
    ((List.range n).map Event.benched ++ Event.sampleEnd :: dropPhase p n) ?_
  rw [recorderTrace_shape, hg]
  simp

/-- `sample_start` precedes each `benched` call. -/
theorem start_precedes_benched (p : TypeProps) {i n : Nat} (h : i < n) :
    Precedes (recorderTrace p n) Event.sampleStart (Event.benched i) := by
  obtain ⟨l1, l2, hl⟩ := range_split h
  have hb : (List.range n).map Event.benched
      = l1.map Event.benched ++ Event.benched i :: l2.map Event.benched := by
    rw [hl]
    simp
  refine precedes_intro ((List.range n).map Event.genInput)
    (l1.map Event.benched)
    (l2.map Event.benched ++ Event.sampleEnd :: dropPhase p n) ?_
  rw [recorderTrace_shape, hb]
  simp

/-- The `i`-th `gen_input` call precedes the `i`-th `benched` call. -/
theorem genInput_precedes_benched (p : TypeProps) {i n : Nat} (h : i < n) :
    Precedes (recorderTrace p n) (Event.genInput i) (Event.benched i) := by
  obtain ⟨l1, l2, hl⟩ := range_split h
  have hg : (List.range n).map Event.genInput
      = l1.map Event.genInput ++ Event.genInput i :: l2.map Event.genInput := by
    rw [hl]
    simp
  have hb : (List.range n).map Event.benched
      = l1.map Event.benched ++ Event.benched i :: l2.map Event.benched := by
    rw [hl]
    simp
  refine precedes_intro (l1.map Event.genInput)
    (l2.map Event.genInput ++ Event.sampleStart :: l1.map Event.benched)
    (l2.map Event.benched ++ Event.sampleEnd :: dropPhase p n) ?_
  rw [recorderTrace_shape, hg, hb]
  simp

/-- `sample_end` precedes every drop-phase event. -/
theorem sampleEnd_precedes_dropPhase (p : TypeProps) {n : Nat} {e : Event}
    (he : e ∈ dropPhase p n) :
    Precedes (recorderTrace p n) Event.sampleEnd e := by
  obtain ⟨s, t', hst⟩ := List.append_of_mem he
  refine precedes_intro
    ((List.range n).map Event.genInput
      ++ Event.sampleStart :: (List.range n).map Event.benched) s t' ?_
  rw [recorderTrace_shape, hst]
  simp

/-- Each `benched` call precedes every drop-phase event. -/
theorem benched_precedes_dropPhase (p : TypeProps) {i n : Nat} {e : Event}
    (h : i < n) (he : e ∈ dropPhase p n) :
    Precedes (recorderTrace p n) (Event.benched i) e := by
  obtain ⟨l1, l2, hl⟩ := range_split h
  have hb : (List.range n).map Event.benched
      = l1.map Event.benched ++ Event.benched i :: l2.map Event.benched := by
    rw [hl]
    simp
  obtain ⟨s, t', hst⟩ := List.append_of_mem he
  refine precedes_intro
    ((List.range n).map Event.genInput
      ++ Event.sampleStart :: l1.map Event.benched)
    (l2.map Event.benched ++ Event.sampleEnd :: s) t' ?_
  rw [recorderTrace_shape, hb, hst]
  simp

/-- When both the `i`-th output and the `i`-th input are dropped, the
output drop precedes the input drop. -/
theorem dropOutput_precedes_dropInput {p : TypeProps} {n i : Nat}
    (hO : Event.dropOutput i ∈ recorderTrace p n)
    (hI : Event.dropInput i ∈ recorderTrace p n) :
    Precedes (recorderTrace p n) (Event.dropOutput i) (Event.dropInput i) := by
  have hO' := dropOutput_mem_dropPhase hO
  have hI' := dropInput_mem_dropPhase hI
  have hlt : i < n := dropOutput_index_lt hO'
  obtain ⟨l1, l2, hl⟩ := range_split hlt
  by_cases hc1 : (p.sizeI = 0 ∧ p.sizeO = 0) ∨ (p.sizeI = 0 ∧ p.dropO = false)
  · by_cases hsO : p.sizeO = 0
    · by_cases hdI : p.dropI
      · have hfun : (fun j => (if p.sizeO = 0 then [Event.dropOutput j] else [])
            ++ (if p.dropI then [Event.dropInput j] else []))
            = fun j => [Event.dropOutput j, Event.dropInput j] := by
          funext j
          simp [hsO, hdI]
        have hd : dropPhase p n
            = l1.flatMap (fun j => [Event.dropOutput j, Event.dropInput j])
              ++ (Event.dropOutput i :: Event.dropInput i ::
                l2.flatMap (fun j => [Event.dropOutput j, Event.dropInput j])) := by
          rw [dropPhase, if_pos hc1, hfun, flatMap_split _ hl]
          simp
        refine precedes_intro
          ((List.range n).map Event.genInput ++ Event.sampleStart ::
            ((List.range n).map Event.benched ++ Event.sampleEnd ::
              l1.flatMap (fun j => [Event.dropOutput j, Event.dropInput j])))
          []
          (l2.flatMap (fun j => [Event.dropOutput j, Event.dropInput j])) ?_
        rw [recorderTrace_shape, hd]
        simp
      · exfalso
        rw [dropPhase, if_pos hc1] at hI'
        simp [hdI] at hI'
    · exfalso
      rw [dropPhase, if_pos hc1] at hO'
      simp [hsO] at hO'
  · by_cases hdO : p.dropO
    · by_cases hdI : p.dropI
      · have hfun : (fun j => [Event.dropOutput j]
            ++ (if p.dropI then [Event.dropInput j] else []))
            = fun j => [Event.dropOutput j, Event.dropInput j] := by
          funext j
          simp [hdI]
        have hd : dropPhase p n
            = l1.flatMap (fun j => [Event.dropOutput j, Event.dropInput j])
              ++ (Event.dropOutput i :: Event.dropInput i ::
                l2.flatMap (fun j => [Event.dropOutput j, Event.dropInput j])) := by
          rw [dropPhase, if_neg hc1, if_pos hdO, hfun, flatMap_split _ hl]
          simp
        refine precedes_intro
          ((List.range n).map Event.genInput ++ Event.sampleStart ::
            ((List.range n).map Event.benched ++ Event.sampleEnd ::
              l1.flatMap (fun j => [Event.dropOutput j, Event.dropInput j])))
          []
          (l2.flatMap (fun j => [Event.dropOutput j, Event.dropInput j])) ?_
        rw [recorderTrace_shape, hd]
        simp
      · exfalso
        rw [dropPhase, if_neg hc1, if_pos hdO] at hI'
        simp [hdI] at hI'
    · exfalso
      rw [dropPhase, if_neg hc1, if_neg hdO] at hO'
      split_ifs at hO' <;> simp at hO'

/-- No `gen_input` calls occur in the drop phase. -/
theorem dropPhase_countP_gen (p : TypeProps) (n : Nat) :
    (dropPhase p n).countP isGenInput = 0 :=
  List.countP_eq_zero.mpr (fun e he => by
    rcases mem_dropPhase_cases he with ⟨j, rfl⟩ | ⟨j, rfl⟩ <;> simp [isGenInput])

/-- No `benched` calls occur in the drop phase. -/
theorem dropPhase_countP_benched (p : TypeProps) (n : Nat) :
    (dropPhase p n).countP isBenched = 0 :=
  List.countP_eq_zero.mpr (fun e he => by
    rcases mem_dropPhase_cases he with ⟨j, rfl⟩ | ⟨j, rfl⟩ <;> simp [isBenched])

/-- The recorder calls `gen_input` exactly `n` times per sample. -/
theorem trace_countP_gen (p : TypeProps) (n : Nat) :
    (recorderTrace p n).countP isGenInput = n := by
  rw [recorderTrace_shape]
  have h1 : (isGenInput ∘ Event.genInput) = fun _ : Nat => true := by
    funext j
    simp [isGenInput, Function.comp]
  have h2 : (isGenInput ∘ Event.benched) = fun _ : Nat => false := by
    funext j
    simp [isGenInput, Function.comp]
  simp [List.countP_append, List.countP_cons, List.countP_map,
    dropPhase_countP_gen, isGenInput, h1, h2, List.countP_true,
    List.countP_false, List.length_range]

/-- The recorder calls `benched` exactly `n` times per sample. -/
theorem trace_countP_benched (p : TypeProps) (n : Nat) :
    (recorderTrace p n).countP isBenched = n := by
  rw [recorderTrace_shape]
  have h1 : (isBenched ∘ Event.genInput) = fun _ : Nat => false := by
    funext j
    simp [isBenched, Function.comp]
  have h2 : (isBenched ∘ Event.benched) = fun _ : Nat => true := by
    funext j
    simp [isBenched, Function.comp]
  simp [List.countP_append, List.countP_cons, List.countP_map,
    dropPhase_countP_benched, isBenched, h1, h2, List.countP_true,
    List.countP_false, List.length_range]

/-- C5: for every sample of size `n` produced by the sample recorder, in
each of its specializations (any input/output sizes and drop needs):
`gen_input` is called exactly `n` times, all before `sample_start`;
`benched` is called exactly `n` times, the `i`-th call after
`sample_start` and preceded by the (exactly one) `i`-th `gen_input`
call; and every `drop_input` call occurs after the corresponding
`benched` call, with outputs dropped after `sample_end` and before
their corresponding inputs. -/
theorem recorderTrace_ok (p : TypeProps) (n : Nat) :
    ((recorderTrace p n).countP isGenInput = n
      ∧ (recorderTrace p n).countP isBenched = n)
    ∧ (∀ i, i < n →
        Precedes (recorderTrace p n) (Event.genInput i) Event.sampleStart
        ∧ Precedes (recorderTrace p n) Event.sampleStart (Event.benched i)
        ∧ Precedes (recorderTrace p n) (Event.genInput i) (Event.benched i))
    ∧ (∀ i, Event.dropOutput i ∈ recorderTrace p n →
        Precedes (recorderTrace p n) Event.sampleEnd (Event.dropOutput i))
    ∧ (∀ i, Event.dropInput i ∈ recorderTrace p n →
        Precedes (recorderTrace p n) (Event.benched i) (Event.dropInput i)
        ∧ Precedes (recorderTrace p n) Event.sampleEnd (Event.dropInput i))
    ∧ (∀ i, Event.dropOutput i ∈ recorderTrace p n →
        Event.dropInput i ∈ recorderTrace p n →
        Precedes (recorderTrace p n) (Event.dropOutput i) (Event.dropInput i)) := by
  refine ⟨⟨trace_countP_gen p n, trace_countP_benched p n⟩, ?_, ?_, ?_, ?_⟩
  · intro i hi
    exact ⟨genInput_precedes_start p hi, start_precedes_benched p hi,
      genInput_precedes_benched p hi⟩
  · intro i hmem
    exact sampleEnd_precedes_dropPhase p (dropOutput_mem_dropPhase hmem)
  · intro i hmem
    have hd := dropInput_mem_dropPhase hmem
    exact ⟨benched_precedes_dropPhase p (dropInput_index_lt hd) hd,
      sampleEnd_precedes_dropPhase p hd⟩
  · intro i hO hI
    exact dropOutput_precedes_dropInput hO hI

/-- Witness for C5: the slot-pair specialization (sized input and
output, both needing drop) at sample size 2, via `recorderTrace_ok`. -/
theorem recorderTrace_ok_witness :
    ((recorderTrace ⟨8, 4, true, true⟩ 2).countP isGenInput = 2
      ∧ (recorderTrace ⟨8, 4, true, true⟩ 2).countP isBenched = 2)
    ∧ Precedes (recorderTrace ⟨8, 4, true, true⟩ 2)
        (Event.genInput 1) (Event.benched 1)
    ∧ Precedes (recorderTrace ⟨8, 4, true, true⟩ 2)
        (Event.dropOutput 0) (Event.dropInput 0) := by
  have h := recorderTrace_ok ⟨8, 4, true, true⟩ 2
  exact ⟨h.1, (h.2.1 1 (by decide)).2.2, h.2.2.2.2 0 (by decide) (by decide)⟩

end Divan
